import Mathlib

/-!
Verification of the detection pipeline of `oto_estimation_checker.py`.

The source program inspects an UTAU `oto.ini` timing-configuration file and
flags audio files whose note-onset timing deviates from the tempo implied by
the rest of the file.  This development shallowly embeds the record data
model and every core function of the source (`remove_cv_and_rest`,
`sorted_otoini`, `median_of_first_preutterance`, `median_of_ms_per_beat`,
`otoini_2d`, `detect_bad_wavfiles`, `detect_bad_aliases`, and the
record-level part of `main`), and proves the specified properties about
them.

Modelling conventions:
  * millisecond times (Python floats) are modelled as rationals;
  * Python exceptions (`IndexError`, `statistics.StatisticsError`,
    `NameError`) are modelled by `Except String` / `Option` results;
  * in-place mutation of `otoini.data` is modelled by explicit state
    passing: a mutating procedure becomes a function from the old
    container to the new one.
-/

namespace OtoCheck

/-- One `utaupy.otoini.Oto` record, restricted to the four fields the
checker reads: alias label, source wav filename, offset (left blank) and
preutterance, the last two in milliseconds. -/
structure Oto where
  «alias» : String
  filename : String
  offset : ℚ
  preutterance : ℚ
deriving DecidableEq

instance : Inhabited Oto := ⟨⟨"", "", 0, 0⟩⟩

/-- The `OtoIni` container: `data` is the record list. -/
structure OtoIni where
  data : List Oto
deriving DecidableEq

/-- Python substring test `needle in hay` on character lists:
true iff `needle` occurs contiguously inside `hay`. -/
def containsSub : List Char → List Char → Bool
  | [], needle => needle.isEmpty
  | c :: rest, needle => needle.isPrefixOf (c :: rest) || containsSub rest needle

/-- Python `needle in hay` for strings. -/
def strIn (needle hay : String) : Bool :=
  containsSub hay.data needle.data

/-- The five-way alias test of `remove_cv_and_rest` (source lines 23-31):
keep a record iff its alias contains a space and contains none of the
markers " R", " -", "息", " を". -/
def keepOto (oto : Oto) : Bool :=
  strIn " " oto.«alias» && !(strIn " R" oto.«alias») && !(strIn " -" oto.«alias»)
    && !(strIn "息" oto.«alias») && !(strIn " を" oto.«alias»)

/-- Source `remove_cv_and_rest(otoini)` (lines 19-31): reassigns
`otoini.data` to the list of records passing `keepOto`, mutating the
caller's container in place (the Python function returns `None`); the
mutation is modelled by returning the new container state. -/
def remove_cv_and_rest (otoini : OtoIni) : OtoIni :=
  ⟨otoini.data.filter keepOto⟩

/-- The comparison realised by
`sorted(otoini, key=attrgetter('filename', 'offset'))` (source line 38):
lexicographic order on the (filename, offset) key. -/
def otoLE (a b : Oto) : Bool :=
  decide (a.filename < b.filename ∨ (a.filename = b.filename ∧ a.offset ≤ b.offset))

/-- Source `sorted_otoini` (lines 34-39): stable sort by wav filename
ascending, then offset ascending.  Python's `sorted` is a stable sort, and
a stable sort's output is uniquely determined by the comparison, so the
stable `List.mergeSort` is a faithful model. -/
def sorted_otoini (otoini : List Oto) : List Oto :=
  otoini.mergeSort otoLE

/-- Rational comparison as a Bool, for sorting duration lists. -/
def qle (a b : ℚ) : Bool := decide (a ≤ b)

/-- Python `statistics.median`: sort the data, return the middle element
(odd length) or the mean of the two middle elements (even length); on
empty data it raises `StatisticsError("no median for empty data")`,
modelled as an `Except.error` with that message. -/
def median (data : List ℚ) : Except String ℚ :=
  let s := data.mergeSort qle
  let n := s.length
  if n = 0 then Except.error "no median for empty data"
  else if n % 2 = 1 then Except.ok (s.getD (n / 2) 0)
  else Except.ok ((s.getD (n / 2 - 1) 0 + s.getD (n / 2) 0) / 2)

/-- Derived onset time of a record: `offset + preutterance`, exactly the
expression the source writes out at lines 48, 65-66 and 102, 121-122. -/
def onset (o : Oto) : ℚ := o.offset + o.preutterance

/-- The list comprehension of `median_of_first_preutterance` (line 47-49):
`l_oto[0].offset + l_oto[0].preutterance` for each group; indexing an
empty group raises `IndexError`, modelled as an error. -/
def firstOnsets : List (List Oto) → Except String (List ℚ)
  | [] => Except.ok []
  | [] :: _ => Except.error "IndexError: list index out of range"
  | (o :: _) :: rest => (firstOnsets rest).map (fun xs => onset o :: xs)

/-- Source `median_of_first_preutterance` (lines 42-50): median over all
groups of the first record's onset time. -/
def median_of_first_preutterance (list_oto_2d : List (List Oto)) : Except String ℚ :=
  match firstOnsets list_oto_2d with
  | Except.error e => Except.error e
  | Except.ok xs => median xs

/-- Inner loop of `median_of_ms_per_beat` (lines 64-69): onset-time
differences of consecutive records within one group, appending a
difference only when it is nonzero. -/
def group_durations : Oto → List Oto → List ℚ
  | _, [] => []
  | prev, curr :: rest =>
    if onset curr - onset prev = 0 then group_durations curr rest
    else (onset curr - onset prev) :: group_durations curr rest

/-- The full `l_times` list built by `median_of_ms_per_beat` (lines 60-69):
per-group duration lists concatenated in group order. -/
def l_times (list_oto_2d : List (List Oto)) : List ℚ :=
  (list_oto_2d.map (fun g =>
    match g with
    | [] => []
    | o :: rest => group_durations o rest)).flatten

/-- Source `median_of_ms_per_beat` (lines 53-70): median of all nonzero
consecutive onset differences. -/
def median_of_ms_per_beat (list_oto_2d : List (List Oto)) : Except String ℚ :=
  median (l_times list_oto_2d)

/-- Loop body of `otoini_2d` (lines 78-86).  In the Python source the name
`l` aliases the list most recently appended to `l_2d`, so `l.append(oto)`
extends the last group in place; here the groups completed so far are
`done`, the current aliased group is `cur` (`none` before the first
assignment of `l`), and `filename` is the tracked change-detection key.
Referencing `l` before its first assignment raises `NameError`, modelled
as `none`. -/
def otoini_2d_go (filename : String) (done : List (List Oto)) (cur : Option (List Oto)) :
    List Oto → Option (List (List Oto))
  | [] =>
    match cur with
    | none => some done
    | some g => some (done ++ [g])
  | oto :: rest =>
    if filename ≠ oto.filename then
      match cur with
      | none => otoini_2d_go oto.filename done (some [oto]) rest
      | some g => otoini_2d_go oto.filename (done ++ [g]) (some [oto]) rest
    else
      match cur with
      | none => none
      | some g => otoini_2d_go filename done (some (g ++ [oto])) rest

/-- Source `otoini_2d` (lines 73-86): split the record list into one group
per wav filename, starting from the sentinel key `''` with `l` not yet
assigned. -/
def otoini_2d (otoini : List Oto) : Option (List (List Oto)) :=
  otoini_2d_go "" [] none otoini

/-- Loop of `detect_bad_wavfiles` (lines 100-103): check each group's
first record (`l_oto[0]`, `IndexError` on an empty group, modelled as
`none`) against the precomputed band and collect the flagged filenames in
group order. -/
def detect_bad_wavfiles_go (t_floor t_ceil : ℚ) : List (List Oto) → Option (List String)
  | [] => some []
  | [] :: _ => none
  | (first_oto :: _) :: rest =>
    let flagged :=
      if ¬ (t_floor < onset first_oto ∧ onset first_oto < t_ceil) then [first_oto.filename]
      else []
    (detect_bad_wavfiles_go t_floor t_ceil rest).map (fun tail => flagged ++ tail)

/-- Source `detect_bad_wavfiles` (lines 89-104): flag each wav file whose
first onset falls outside the open band
`median_start ± ms_per_beat * threshold`. -/
def detect_bad_wavfiles (list_oto_2d : List (List Oto)) (ms_per_beat median_start : ℚ)
    (threshold : ℚ) : Option (List String) :=
  detect_bad_wavfiles_go (median_start - ms_per_beat * threshold)
    (median_start + ms_per_beat * threshold) list_oto_2d

/-- Inner loop of `detect_bad_aliases` (lines 115-134): scan consecutive
onset differences; skip zero differences; on the first difference outside
the open band return the current record's filename (the `break`). -/
def first_bad_alias (t_floor t_ceil : ℚ) : Oto → List Oto → Option String
  | _, [] => none
  | prev, curr :: rest =>
    if onset curr - onset prev = 0 then first_bad_alias t_floor t_ceil curr rest
    else if ¬ (t_floor < onset curr - onset prev ∧ onset curr - onset prev < t_ceil) then
      some curr.filename
    else first_bad_alias t_floor t_ceil curr rest

/-- Source `detect_bad_aliases` (lines 107-135): per group, at most one
flagged filename, namely the filename of the record at the first
out-of-band nonzero onset difference. -/
def detect_bad_aliases (list_oto_2d : List (List Oto)) (ms_per_beat threshold : ℚ) :
    List String :=
  list_oto_2d.filterMap (fun g =>
    match g with
    | [] => none
    | o :: rest =>
      first_bad_alias (ms_per_beat * (1 - threshold)) (ms_per_beat * (1 + threshold)) o rest)

/-- Record-level prefix of `main` (source lines 153-161): sort the loaded
records, write the sorted view to `sorted_otoini.txt`, then run the
destructive filter.  Returns the written view together with the container
state after the filter (the state later passed to `otoini_2d`). -/
def main_artifacts (otoini : OtoIni) : List Oto × OtoIni :=
  let sorted_state : OtoIni := ⟨sorted_otoini otoini.data⟩
  let written := sorted_state.data
  let filtered_state := remove_cv_and_rest sorted_state
  (written, filtered_state)

/-- Filename of a group's first record (groups are nonempty in the
pipeline). -/
def headFilename (g : List Oto) : String := g.headI.filename

/-- Functional description of the grouping loop once the aliased list `l`
exists: current tracked key `fn`, current group `g`, remaining records. -/
def groupRunsFrom (fn : String) (g : List Oto) : List Oto → List (List Oto)
  | [] => [g]
  | oto :: rest =>
    if fn ≠ oto.filename then g :: groupRunsFrom oto.filename [oto] rest
    else groupRunsFrom fn (g ++ [oto]) rest

/-- Sample record that passes the continuous-alias filter. -/
def otoA : Oto := ⟨"a b", "x.wav", 0, 0⟩

/-- Sample record with an empty wav filename. -/
def otoNoName : Oto := ⟨"a b", "", 0, 0⟩

/-- Sample record that the continuous-alias filter removes (no space in
the alias). -/
def otoR : Oto := ⟨"R", "a.wav", 0, 0⟩

/-! ### Basic facts about the comparison functions -/

lemma otoLE_trans (a b c : Oto) (hab : otoLE a b = true) (hbc : otoLE b c = true) :
    otoLE a c = true := by
  simp only [otoLE, decide_eq_true_eq] at hab hbc ⊢
  rcases hab with h1 | ⟨h1, h1'⟩ <;> rcases hbc with h2 | ⟨h2, h2'⟩
  · exact Or.inl (lt_trans h1 h2)
  · exact Or.inl (h2 ▸ h1)
  · exact Or.inl (h1 ▸ h2)
  · exact Or.inr ⟨h1.trans h2, h1'.trans h2'⟩

lemma otoLE_total (a b : Oto) : (otoLE a b || otoLE b a) = true := by
  simp only [otoLE, Bool.or_eq_true, decide_eq_true_eq]
  rcases lt_trichotomy a.filename b.filename with h | h | h
  · exact Or.inl (Or.inl h)
  · rcases le_total a.offset b.offset with ho | ho
    · exact Or.inl (Or.inr ⟨h, ho⟩)
    · exact Or.inr (Or.inr ⟨h.symm, ho⟩)
  · exact Or.inr (Or.inl h)

lemma qle_trans (a b c : ℚ) (hab : qle a b = true) (hbc : qle b c = true) :
    qle a c = true := by
  simp only [qle, decide_eq_true_eq] at hab hbc ⊢
  exact hab.trans hbc

lemma qle_total (a b : ℚ) : (qle a b || qle b a) = true := by
  simp only [qle, Bool.or_eq_true, decide_eq_true_eq]
  exact le_total a b

/-! ### The grouping loop -/

lemma otoini_2d_go_some (rest : List Oto) : ∀ (fn : String) (done : List (List Oto))
    (g : List Oto),
    otoini_2d_go fn done (some g) rest = some (done ++ groupRunsFrom fn g rest) := by
  induction rest with
  | nil => intro fn done g; simp [otoini_2d_go, groupRunsFrom]
  | cons oto rest ih =>
    intro fn done g
    by_cases h : fn ≠ oto.filename
    · simp only [otoini_2d_go, groupRunsFrom, if_pos h]
      rw [ih]
      simp
    · simp only [otoini_2d_go, groupRunsFrom, if_neg h]
      exact ih fn done (g ++ [oto])

lemma otoini_2d_nil : otoini_2d [] = some [] := rfl

lemma otoini_2d_cons (o : Oto) (rest : List Oto) (h : o.filename ≠ "") :
    otoini_2d (o :: rest) = some (groupRunsFrom o.filename [o] rest) := by
  unfold otoini_2d otoini_2d_go
  rw [if_pos (Ne.symm h)]
  rw [otoini_2d_go_some]
  simp

lemma otoini_2d_cons_bad (o : Oto) (rest : List Oto) (h : o.filename = "") :
    otoini_2d (o :: rest) = none := by
  unfold otoini_2d otoini_2d_go
  rw [if_neg (by simp [h])]

lemma groupRunsFrom_exists_prefix (rest : List Oto) : ∀ fn g,
    ∃ t gs, groupRunsFrom fn g rest = (g ++ t) :: gs := by
  induction rest with
  | nil => intro fn g; exact ⟨[], [], by simp [groupRunsFrom]⟩
  | cons oto rest ih =>
    intro fn g
    by_cases h : fn ≠ oto.filename
    · exact ⟨[], groupRunsFrom oto.filename [oto] rest, by simp [groupRunsFrom, if_pos h]⟩
    · obtain ⟨t, gs, ht⟩ := ih fn (g ++ [oto])
      exact ⟨oto :: t, gs, by simp [groupRunsFrom, if_neg h, ht]⟩

lemma groupRunsFrom_flatten (rest : List Oto) : ∀ fn g,
    (groupRunsFrom fn g rest).flatten = g ++ rest := by
  induction rest with
  | nil => intro fn g; simp [groupRunsFrom]
  | cons oto rest ih =>
    intro fn g
    by_cases h : fn ≠ oto.filename
    · simp [groupRunsFrom, if_pos h, ih]
    · simp [groupRunsFrom, if_neg h, ih]

lemma groupRunsFrom_ne_nil (rest : List Oto) : ∀ fn g, g ≠ [] →
    ∀ h ∈ groupRunsFrom fn g rest, h ≠ [] := by
  induction rest with
  | nil =>
    intro fn g hg h hh
    simp only [groupRunsFrom, List.mem_singleton] at hh
    exact hh ▸ hg
  | cons oto rest ih =>
    intro fn g hg h hh
    by_cases hcase : fn ≠ oto.filename
    · simp only [groupRunsFrom, if_pos hcase, List.mem_cons] at hh
      rcases hh with rfl | hh
      · exact hg
      · exact ih oto.filename [oto] (by simp) h hh
    · simp only [groupRunsFrom, if_neg hcase] at hh
      exact ih fn (g ++ [oto]) (by simp) h hh

lemma groupRunsFrom_filename (rest : List Oto) : ∀ fn g, (∀ o ∈ g, o.filename = fn) →
    ∀ h ∈ groupRunsFrom fn g rest, ∀ a ∈ h, ∀ b ∈ h, a.filename = b.filename := by
  induction rest with
  | nil =>
    intro fn g hg h hh a ha b hb
    simp only [groupRunsFrom, List.mem_singleton] at hh
    subst hh
    rw [hg a ha, hg b hb]
  | cons oto rest ih =>
    intro fn g hg h hh
    by_cases hcase : fn ≠ oto.filename
    · simp only [groupRunsFrom, if_pos hcase, List.mem_cons] at hh
      rcases hh with rfl | hh
      · intro a ha b hb; rw [hg a ha, hg b hb]
      · exact ih oto.filename [oto] (by simp) h hh
    · simp only [groupRunsFrom, if_neg hcase] at hh
      refine ih fn (g ++ [oto]) ?_ h hh
      intro o ho
      rcases List.mem_append.mp ho with h1 | h1
      · exact hg o h1
      · rw [List.mem_singleton] at h1
        subst h1
        exact (not_ne_iff.mp hcase).symm

lemma headFilename_of_forall {g : List Oto} {fn : String} (hne : g ≠ [])
    (h : ∀ o ∈ g, o.filename = fn) : headFilename g = fn := by
  cases g with
  | nil => exact absurd rfl hne
  | cons o t => exact h o (List.mem_cons_self o t)

lemma groupRunsFrom_chain (rest : List Oto) : ∀ fn g, g ≠ [] → (∀ o ∈ g, o.filename = fn) →
    List.Chain' (fun a b => a ≠ b) ((groupRunsFrom fn g rest).map headFilename) := by
  induction rest with
  | nil => intro fn g _ _; simp [groupRunsFrom]
  | cons oto rest ih =>
    intro fn g hg hfn
    by_cases hcase : fn ≠ oto.filename
    · obtain ⟨t, gs, ht⟩ := groupRunsFrom_exists_prefix rest oto.filename [oto]
      have hchain := ih oto.filename [oto] (by simp) (by simp)
      rw [ht] at hchain
      simp only [groupRunsFrom, if_pos hcase, List.map_cons, ht] at hchain ⊢
      rw [List.chain'_cons]
      refine ⟨?_, hchain⟩
      rw [headFilename_of_forall hg hfn]
      simpa [headFilename] using hcase
    · simp only [groupRunsFrom, if_neg hcase]
      refine ih fn (g ++ [oto]) (by simp) ?_
      intro o ho
      rcases List.mem_append.mp ho with h1 | h1
      · exact hfn o h1
      · rw [List.mem_singleton] at h1
        subst h1
        exact (not_ne_iff.mp hcase).symm

/-! ### Claims C7-C10 -/

/-- Claim C8 (counterexample): `remove_cv_and_rest` does not leave the
caller's collection unmodified — on a container holding a single rest
record the data list is changed (it becomes empty). -/
theorem remove_cv_and_rest_modifies_input :
    (remove_cv_and_rest ⟨[otoR]⟩).data ≠ (OtoIni.mk [otoR]).data := by decide

/-- Claim C8 (amended): `remove_cv_and_rest` mutates its input, replacing
`otoini.data` by the subsequence of records passing the continuous-alias
test `keepOto`; exactly the kept records remain, in their original
relative order (the new data list is a sublist of the old). -/
theorem remove_cv_and_rest_spec (otoini : OtoIni) :
    (remove_cv_and_rest otoini).data = otoini.data.filter keepOto
  ∧ List.Sublist (remove_cv_and_rest otoini).data otoini.data
  ∧ (∀ o : Oto, o ∈ (remove_cv_and_rest otoini).data ↔ o ∈ otoini.data ∧ keepOto o = true) :=
  ⟨rfl, List.filter_sublist _, fun _ => List.mem_filter⟩

/-- Claim C9 (counterexample): the sorted view written to
`sorted_otoini.txt` is produced before the destructive filter step: on a
container holding a single rest record, the written collection is the full
record set while the collection the detector analyzes is empty. -/
theorem main_writes_unfiltered :
    (main_artifacts ⟨[otoR]⟩).1 = [otoR]
  ∧ ((main_artifacts ⟨[otoR]⟩).2).data = []
  ∧ (main_artifacts ⟨[otoR]⟩).1 ≠ ((main_artifacts ⟨[otoR]⟩).2).data := by
  have h1 : (main_artifacts ⟨[otoR]⟩).1 = [otoR] := by
    simp [main_artifacts, sorted_otoini]
  have h2 : ((main_artifacts ⟨[otoR]⟩).2).data = [] := by
    simp [main_artifacts, remove_cv_and_rest, sorted_otoini]
    decide
  refine ⟨h1, h2, ?_⟩
  rw [h1, h2]
  decide

/-- Claim C9 (amended): in `main`, the re-serialized collection written to
`sorted_otoini.txt` is produced before the destructive filter step: it is
the full sorted record set (a permutation of every loaded record), and the
continuous-alias subset that the detector analyzes is obtained from it by
filtering afterwards. -/
theorem main_artifacts_spec (otoini : OtoIni) :
    (main_artifacts otoini).1 = sorted_otoini otoini.data
  ∧ List.Perm (main_artifacts otoini).1 otoini.data
  ∧ ((main_artifacts otoini).2).data = List.filter keepOto (main_artifacts otoini).1 :=
  ⟨rfl, List.mergeSort_perm _ _, rfl⟩

/-- Claim C7 (counterexample): on the degenerate dataset with no file
groups, tempo estimation fails with the statistics library's own error
message, not with the clear diagnostic "insufficient data to estimate
tempo" demanded by the claim. -/
theorem median_error_is_library_error :
    median_of_ms_per_beat ([] : List (List Oto)) = Except.error "no median for empty data"
  ∧ median_of_ms_per_beat ([] : List (List Oto))
      ≠ Except.error "insufficient data to estimate tempo" := by
  have h : median_of_ms_per_beat ([] : List (List Oto))
      = Except.error "no median for empty data" := by
    simp [median_of_ms_per_beat, l_times, median]
  refine ⟨h, ?_⟩
  rw [h]
  intro hcontra
  exact absurd (Except.error.inj hcontra) (by decide)

/-- Claim C7 (amended): when the filtered duration list is empty (no file
groups, or no consecutive pair with nonzero onset difference), the run
fails, but with the library error propagating from `statistics.median`
("no median for empty data"), not with a dedicated diagnostic; the
same library error is raised by the first-onset median on an empty
grouping. -/
theorem median_of_ms_per_beat_degenerate (l2d : List (List Oto)) (h : l_times l2d = []) :
    median_of_ms_per_beat l2d = Except.error "no median for empty data"
  ∧ median_of_first_preutterance [] = Except.error "no median for empty data" := by
  refine ⟨?_, ?_⟩
  · simp [median_of_ms_per_beat, h, median]
  · simp [median_of_first_preutterance, firstOnsets, median]

/-- Claim C7 witness: a dataset with one group of two records at identical
onsets has an empty duration list, and the failure is as stated. -/
theorem median_of_ms_per_beat_degenerate_witness :
    median_of_ms_per_beat [[otoA, otoA]] = Except.error "no median for empty data"
  ∧ median_of_first_preutterance [] = Except.error "no median for empty data" :=
  median_of_ms_per_beat_degenerate [[otoA, otoA]] (by simp [l_times, group_durations])

/-- Claim C10: `otoini_2d` initializes its change-detection key to the
empty string; a non-empty input whose first record has a non-empty
filename is grouped successfully with every group non-empty, while an
input whose first record's filename is the empty string makes the loop
reference the never-created accumulator list, and the operation fails. -/
theorem otoini_2d_sentinel (o : Oto) (rest : List Oto) :
    (o.filename ≠ "" → ∃ gs, otoini_2d (o :: rest) = some gs ∧ ∀ g ∈ gs, g ≠ [])
  ∧ (o.filename = "" → otoini_2d (o :: rest) = none) := by
  constructor
  · intro h
    exact ⟨groupRunsFrom o.filename [o] rest, otoini_2d_cons o rest h,
      groupRunsFrom_ne_nil rest o.filename [o] (by simp)⟩
  · intro h
    exact otoini_2d_cons_bad o rest h

/-- Claim C10 witness: concrete instances of both halves. -/
theorem otoini_2d_sentinel_witness :
    (∃ gs, otoini_2d [otoA] = some gs ∧ ∀ g ∈ gs, g ≠ [])
  ∧ otoini_2d [otoNoName] = none :=
  ⟨(otoini_2d_sentinel otoA []).1 (by decide), (otoini_2d_sentinel otoNoName []).2 rfl⟩

/-! ### The deviation detectors, declaratively -/

/-- A violating consecutive pair: nonzero onset difference lying outside
the open band `(t_floor, t_ceil)`. -/
def badPair (t_floor t_ceil : ℚ) (pr : Oto × Oto) : Prop :=
  onset pr.2 - onset pr.1 ≠ 0
  ∧ ¬ (t_floor < onset pr.2 - onset pr.1 ∧ onset pr.2 - onset pr.1 < t_ceil)

instance (t_floor t_ceil : ℚ) (pr : Oto × Oto) : Decidable (badPair t_floor t_ceil pr) := by
  unfold badPair
  infer_instance

/-- Sample record starting a two-record group. -/
def otoW0 : Oto := ⟨"a b", "w.wav", 0, 0⟩

/-- Sample record 100 ms after `otoW0` in the same group. -/
def otoW1 : Oto := ⟨"a b", "w.wav", 100, 0⟩

lemma first_bad_alias_eq (t_floor t_ceil : ℚ) (rest : List Oto) : ∀ (prev : Oto) (fn : String),
    (∀ a ∈ prev :: rest, a.filename = fn) →
    first_bad_alias t_floor t_ceil prev rest
      = if ∃ pr ∈ (prev :: rest).zip rest, badPair t_floor t_ceil pr then some fn
        else none := by
  induction rest with
  | nil => intro prev fn _; simp [first_bad_alias]
  | cons curr rest ih =>
    intro prev fn hfn
    have hfn' : ∀ a ∈ curr :: rest, a.filename = fn :=
      fun a ha => hfn a (List.mem_cons_of_mem _ ha)
    have hzip : (prev :: curr :: rest).zip (curr :: rest)
        = (prev, curr) :: ((curr :: rest).zip rest) := rfl
    rw [hzip]
    by_cases h0 : onset curr - onset prev = 0
    · have hL : first_bad_alias t_floor t_ceil prev (curr :: rest)
          = first_bad_alias t_floor t_ceil curr rest := by
        simp [first_bad_alias, h0]
      have hnb : ¬ badPair t_floor t_ceil (prev, curr) := fun hb => hb.1 h0
      rw [hL, ih curr fn hfn']
      refine (if_congr ?_ rfl rfl).symm
      rw [List.exists_mem_cons_iff]
      exact or_iff_right hnb
    · by_cases hband : t_floor < onset curr - onset prev ∧ onset curr - onset prev < t_ceil
      · have hL : first_bad_alias t_floor t_ceil prev (curr :: rest)
            = first_bad_alias t_floor t_ceil curr rest := by
          simp [first_bad_alias, h0, hband]
        have hnb : ¬ badPair t_floor t_ceil (prev, curr) := fun hb => hb.2 hband
        rw [hL, ih curr fn hfn']
        refine (if_congr ?_ rfl rfl).symm
        rw [List.exists_mem_cons_iff]
        exact or_iff_right hnb
      · have hL : first_bad_alias t_floor t_ceil prev (curr :: rest)
            = some curr.filename := by
          simp [first_bad_alias, h0, hband]
        rw [hL, if_pos ⟨(prev, curr), List.mem_cons_self _ _, h0, hband⟩,
          hfn curr (List.mem_cons_of_mem _ (List.mem_cons_self _ _))]

lemma detect_bad_aliases_eq (l2d : List (List Oto)) (ms_per_beat threshold : ℚ)
    (huni : ∀ g ∈ l2d, ∀ a ∈ g, ∀ b ∈ g, a.filename = b.filename) :
    detect_bad_aliases l2d ms_per_beat threshold
      = l2d.filterMap (fun g =>
          if ∃ pr ∈ g.zip g.tail,
              badPair (ms_per_beat * (1 - threshold)) (ms_per_beat * (1 + threshold)) pr
          then some (headFilename g) else none) := by
  unfold detect_bad_aliases
  refine List.filterMap_congr ?_
  intro g hg
  cases g with
  | nil => simp
  | cons o rest =>
    have huni' : ∀ a ∈ o :: rest, a.filename = headFilename (o :: rest) :=
      fun a ha => huni _ hg a ha o (List.mem_cons_self _ _)
    show first_bad_alias (ms_per_beat * (1 - threshold)) (ms_per_beat * (1 + threshold)) o rest
        = _
    rw [first_bad_alias_eq _ _ rest o (headFilename (o :: rest)) huni']
    rfl

/-- Claim C1: for every grouped dataset (each group sharing one filename),
`detect_bad_aliases` contributes per group at most one entry, namely the
group's source file, and it does so exactly when some consecutive record
pair (scanning from the second record onward) has a nonzero onset
difference outside the strict band
`(ms_per_beat*(1-threshold), ms_per_beat*(1+threshold))`; zero differences
are skipped, and a single-record group (empty pair list) is never
flagged. -/
theorem detect_bad_aliases_spec (l2d : List (List Oto)) (ms_per_beat threshold : ℚ)
    (huni : ∀ g ∈ l2d, ∀ a ∈ g, ∀ b ∈ g, a.filename = b.filename) :
    detect_bad_aliases l2d ms_per_beat threshold
      = l2d.filterMap (fun g =>
          if ∃ pr ∈ g.zip g.tail,
              badPair (ms_per_beat * (1 - threshold)) (ms_per_beat * (1 + threshold)) pr
          then some (headFilename g) else none) :=
  detect_bad_aliases_eq l2d ms_per_beat threshold huni

/-- Claim C1 witness: a concrete two-record group with a 100 ms gap under
a 500 ms beat at threshold 0.2 (band (400, 600)). -/
theorem detect_bad_aliases_spec_witness :
    detect_bad_aliases [[otoW0, otoW1]] 500 (2/10)
      = [[otoW0, otoW1]].filterMap (fun g =>
          if ∃ pr ∈ g.zip g.tail, badPair (500 * (1 - 2/10)) (500 * (1 + 2/10)) pr
          then some (headFilename g) else none) :=
  detect_bad_aliases_spec [[otoW0, otoW1]] 500 (2/10) (by decide)

lemma detect_bad_wavfiles_go_eq (t_floor t_ceil : ℚ) :
    ∀ l2d : List (List Oto), (∀ g ∈ l2d, g ≠ []) →
    detect_bad_wavfiles_go t_floor t_ceil l2d
      = some (l2d.filterMap (fun g => g.head?.bind (fun o =>
          if t_floor < onset o ∧ onset o < t_ceil then none
          else some o.filename))) := by
  intro l2d
  induction l2d with
  | nil => intro _; rfl
  | cons g rest ih =>
    intro hne
    cases g with
    | nil => exact absurd rfl (hne [] (List.mem_cons_self _ _))
    | cons o t =>
      have htail := ih (fun g hg => hne g (List.mem_cons_of_mem _ hg))
      have hgo : detect_bad_wavfiles_go t_floor t_ceil ((o :: t) :: rest)
          = (detect_bad_wavfiles_go t_floor t_ceil rest).map (fun tail =>
              (if ¬ (t_floor < onset o ∧ onset o < t_ceil) then [o.filename] else [])
                ++ tail) := rfl
      rw [hgo, htail]
      rw [List.filterMap_cons]
      by_cases hband : t_floor < onset o ∧ onset o < t_ceil
      · rw [show ((o :: t).head?.bind fun a =>
            if t_floor < onset a ∧ onset a < t_ceil then none else some a.filename)
            = none from by simp [hband]]
        simp only [Option.map_some', if_neg (not_not_intro hband), List.nil_append]
      · rw [show ((o :: t).head?.bind fun a =>
            if t_floor < onset a ∧ onset a < t_ceil then none else some a.filename)
            = some o.filename from by simp [hband]]
        simp only [Option.map_some', if_pos hband, List.singleton_append]

/-- Claim C2: for every grouped dataset (all groups nonempty),
`detect_bad_wavfiles` examines exactly the first record of each group and
appends that record's filename exactly when its onset `t` does not satisfy
the strict double inequality
`median_start - ms_per_beat*threshold < t < median_start + ms_per_beat*threshold`;
at most one filename is contributed per group. -/
theorem detect_bad_wavfiles_spec (l2d : List (List Oto))
    (ms_per_beat median_start threshold : ℚ) (hne : ∀ g ∈ l2d, g ≠ []) :
    detect_bad_wavfiles l2d ms_per_beat median_start threshold
      = some (l2d.filterMap (fun g => g.head?.bind (fun o =>
          if median_start - ms_per_beat * threshold < onset o
              ∧ onset o < median_start + ms_per_beat * threshold
          then none else some o.filename))) :=
  detect_bad_wavfiles_go_eq _ _ l2d hne

/-- Claim C2 witness: a concrete one-group dataset whose first onset 0
falls outside the band 1000 ± 100. -/
theorem detect_bad_wavfiles_spec_witness :
    detect_bad_wavfiles [[otoW0, otoW1]] 500 1000 (2/10)
      = some ([[otoW0, otoW1]].filterMap (fun g => g.head?.bind (fun o =>
          if 1000 - 500 * (2/10) < onset o ∧ onset o < 1000 + 500 * (2/10)
          then none else some o.filename))) :=
  detect_bad_wavfiles_spec [[otoW0, otoW1]] 500 1000 (2/10) (by decide)

/-! ### The tempo estimator, declaratively -/

lemma group_durations_eq (rest : List Oto) : ∀ prev : Oto,
    group_durations prev rest
      = ((prev :: rest).zip rest).filterMap (fun pr =>
          if onset pr.2 - onset pr.1 = 0 then none
          else some (onset pr.2 - onset pr.1)) := by
  induction rest with
  | nil => intro _; rfl
  | cons curr rest ih =>
    intro prev
    have hzip : (prev :: curr :: rest).zip (curr :: rest)
        = (prev, curr) :: ((curr :: rest).zip rest) := rfl
    rw [hzip]
    by_cases h0 : onset curr - onset prev = 0
    · simp [group_durations, h0, List.filterMap_cons, ih]
    · simp [group_durations, h0, List.filterMap_cons, ih]

lemma l_times_eq (l2d : List (List Oto)) :
    l_times l2d
      = (l2d.map (fun g => (g.zip g.tail).filterMap (fun pr =>
          if onset pr.2 - onset pr.1 = 0 then none
          else some (onset pr.2 - onset pr.1)))).flatten := by
  unfold l_times
  congr 1
  refine List.map_congr_left ?_
  intro g _
  cases g with
  | nil => simp
  | cons o rest => exact group_durations_eq rest o

/-- Claim C3: `median_of_ms_per_beat` is the median, over all groups and
all consecutive record pairs within a group, of the onset difference
`curr - prev`, with pairs whose difference is exactly zero excluded; in
particular a two-record group with identical onset times contributes no
entry to the duration list. -/
theorem median_of_ms_per_beat_spec :
    (∀ l2d : List (List Oto),
      median_of_ms_per_beat l2d
        = median ((l2d.map (fun g => (g.zip g.tail).filterMap (fun pr =>
            if onset pr.2 - onset pr.1 = 0 then none
            else some (onset pr.2 - onset pr.1)))).flatten))
  ∧ (∀ a b : Oto, onset a = onset b → l_times [[a, b]] = []) := by
  constructor
  · intro l2d
    unfold median_of_ms_per_beat
    rw [l_times_eq]
  · intro a b h
    simp [l_times, group_durations, sub_eq_zero.mpr h.symm]

/-- Claim C3 witness: the declarative form on a concrete dataset, and an
identical-onset pair contributing nothing. -/
theorem median_of_ms_per_beat_spec_witness :
    median_of_ms_per_beat [[otoW0, otoW1]]
      = median (([[otoW0, otoW1]].map (fun g => (g.zip g.tail).filterMap (fun pr =>
          if onset pr.2 - onset pr.1 = 0 then none
          else some (onset pr.2 - onset pr.1)))).flatten)
  ∧ l_times [[otoA, otoA]] = [] :=
  ⟨median_of_ms_per_beat_spec.1 [[otoW0, otoW1]],
   median_of_ms_per_beat_spec.2 otoA otoA rfl⟩

/-! ### Threshold monotonicity (claim C4) -/

lemma wav_band_mono (mpb ms : ℚ) {th th' : ℚ} (h0 : 0 < th) (h : th ≤ th') (t : ℚ)
    (hacc : ms - mpb * th < t ∧ t < ms + mpb * th) :
    ms - mpb * th' < t ∧ t < ms + mpb * th' := by
  rcases le_or_lt 0 mpb with hm | hm
  · have hmul : mpb * th ≤ mpb * th' := mul_le_mul_of_nonneg_left h hm
    exact ⟨by linarith [hacc.1], by linarith [hacc.2]⟩
  · exfalso
    have h1 : mpb * th < 0 := mul_neg_of_neg_of_pos hm h0
    linarith [hacc.1, hacc.2]

lemma alias_band_mono (mpb : ℚ) {th th' : ℚ} (h0 : 0 < th) (h : th ≤ th') (d : ℚ)
    (hacc : mpb * (1 - th) < d ∧ d < mpb * (1 + th)) :
    mpb * (1 - th') < d ∧ d < mpb * (1 + th') := by
  rcases le_or_lt 0 mpb with hm | hm
  · constructor
    · have hmul : mpb * (1 - th') ≤ mpb * (1 - th) :=
        mul_le_mul_of_nonneg_left (by linarith) hm
      linarith [hacc.1]
    · have hmul : mpb * (1 + th) ≤ mpb * (1 + th') :=
        mul_le_mul_of_nonneg_left (by linarith) hm
      linarith [hacc.2]
  · exfalso
    have hlt : mpb * (1 - th) < mpb * (1 + th) := lt_trans hacc.1 hacc.2
    nlinarith [mul_neg_of_neg_of_pos hm h0]

/-- Claim C4: for a fixed grouped dataset and fixed estimates, the suspect
set produced at threshold 0.2 contains the suspect set produced at
threshold 0.9, for the first-onset check and for the inter-onset check
independently. -/
theorem threshold_monotonicity (l2d : List (List Oto)) (ms_per_beat median_start : ℚ)
    (hne : ∀ g ∈ l2d, g ≠ [])
    (huni : ∀ g ∈ l2d, ∀ a ∈ g, ∀ b ∈ g, a.filename = b.filename) :
    (∀ r02 r09 : List String,
      detect_bad_wavfiles l2d ms_per_beat median_start (2/10) = some r02 →
      detect_bad_wavfiles l2d ms_per_beat median_start (9/10) = some r09 →
      ∀ fn ∈ r09, fn ∈ r02)
  ∧ (∀ fn ∈ detect_bad_aliases l2d ms_per_beat (9/10),
      fn ∈ detect_bad_aliases l2d ms_per_beat (2/10)) := by
  constructor
  · intro r02 r09 h02 h09 fn hfn
    unfold detect_bad_wavfiles at h02 h09
    rw [detect_bad_wavfiles_go_eq _ _ l2d hne] at h02 h09
    injection h02 with h02
    injection h09 with h09
    subst h02
    subst h09
    obtain ⟨g, hg, hfg⟩ := List.mem_filterMap.mp hfn
    cases g with
    | nil => exact absurd rfl (hne [] hg)
    | cons o t =>
      have hfg' : (if median_start - ms_per_beat * (9/10) < onset o
            ∧ onset o < median_start + ms_per_beat * (9/10)
          then none else some o.filename) = some fn := hfg
      by_cases hb : median_start - ms_per_beat * (9/10) < onset o
          ∧ onset o < median_start + ms_per_beat * (9/10)
      · rw [if_pos hb] at hfg'
        exact absurd hfg' (by simp)
      · rw [if_neg hb] at hfg'
        refine List.mem_filterMap.mpr ⟨o :: t, hg, ?_⟩
        have hb02 : ¬ (median_start - ms_per_beat * (2/10) < onset o
            ∧ onset o < median_start + ms_per_beat * (2/10)) := by
          intro hacc
          exact hb (wav_band_mono ms_per_beat median_start (by norm_num) (by norm_num)
            (onset o) hacc)
        show ((o :: t).head?.bind fun a =>
            if median_start - ms_per_beat * (2/10) < onset a
                ∧ onset a < median_start + ms_per_beat * (2/10)
            then none else some a.filename) = some fn
        have : ((o :: t).head?.bind fun a =>
            if median_start - ms_per_beat * (2/10) < onset a
                ∧ onset a < median_start + ms_per_beat * (2/10)
            then none else some a.filename)
            = (if median_start - ms_per_beat * (2/10) < onset o
                ∧ onset o < median_start + ms_per_beat * (2/10)
              then none else some o.filename) := rfl
        rw [this, if_neg hb02]
        exact hfg'
  · intro fn hfn
    rw [detect_bad_aliases_eq l2d ms_per_beat (9/10) huni] at hfn
    rw [detect_bad_aliases_eq l2d ms_per_beat (2/10) huni]
    obtain ⟨g, hg, hfg⟩ := List.mem_filterMap.mp hfn
    refine List.mem_filterMap.mpr ⟨g, hg, ?_⟩
    by_cases hex : ∃ pr ∈ g.zip g.tail,
        badPair (ms_per_beat * (1 - 9/10)) (ms_per_beat * (1 + 9/10)) pr
    · rw [if_pos hex] at hfg
      obtain ⟨pr, hpr, hbad⟩ := hex
      have hbad02 : badPair (ms_per_beat * (1 - 2/10)) (ms_per_beat * (1 + 2/10)) pr := by
        refine ⟨hbad.1, fun hacc => hbad.2 ?_⟩
        exact alias_band_mono ms_per_beat (by norm_num) (by norm_num) _ hacc
      rw [if_pos ⟨pr, hpr, hbad02⟩]
      exact hfg
    · rw [if_neg hex] at hfg
      exact absurd hfg (by simp)

/-- Claim C4 witness: the concrete two-record dataset of the other
witnesses, instantiating both halves. -/
theorem threshold_monotonicity_witness :
    (∀ fn ∈ ([[otoW0, otoW1]].filterMap (fun g => g.head?.bind (fun o =>
        if 1000 - 500 * (9/10) < onset o ∧ onset o < 1000 + 500 * (9/10)
        then none else some o.filename))),
      fn ∈ ([[otoW0, otoW1]].filterMap (fun g => g.head?.bind (fun o =>
        if 1000 - 500 * (2/10) < onset o ∧ onset o < 1000 + 500 * (2/10)
        then none else some o.filename))))
  ∧ (∀ fn ∈ detect_bad_aliases [[otoW0, otoW1]] 500 (9/10),
      fn ∈ detect_bad_aliases [[otoW0, otoW1]] 500 (2/10)) :=
  ⟨(threshold_monotonicity [[otoW0, otoW1]] 500 1000 (by decide) (by decide)).1
      _ _ (detect_bad_wavfiles_go_eq _ _ _ (by decide))
      (detect_bad_wavfiles_go_eq _ _ _ (by decide)),
   (threshold_monotonicity [[otoW0, otoW1]] 500 1000 (by decide) (by decide)).2⟩

/-! ### Median shift invariance (claim C5) -/

/-- Add `c` milliseconds to a record's offset. -/
def shiftOto (c : ℚ) (o : Oto) : Oto := ⟨o.«alias», o.filename, o.offset + c, o.preutterance⟩

/-- Shift every record of a grouped dataset by `c`. -/
def shift2d (c : ℚ) (l2d : List (List Oto)) : List (List Oto) :=
  l2d.map (fun g => g.map (shiftOto c))

lemma onset_shiftOto (c : ℚ) (o : Oto) : onset (shiftOto c o) = onset o + c := by
  simp only [onset, shiftOto]
  ring

lemma qle_shift (c a b : ℚ) : qle a b = qle (a + c) (b + c) :=
  decide_eq_decide.mpr (add_le_add_iff_right c).symm

lemma mergeSort_map_add (xs : List ℚ) (c : ℚ) :
    (xs.map (fun x => x + c)).mergeSort qle = (xs.mergeSort qle).map (fun x => x + c) :=
  (List.map_mergeSort (fun a _ b _ => qle_shift c a b)).symm

lemma getD_map_add (xs : List ℚ) (c : ℚ) (i : ℕ) (h : i < xs.length) :
    (xs.map (fun x => x + c)).getD i 0 = xs.getD i 0 + c := by
  rw [List.getD_eq_getElem?_getD, List.getD_eq_getElem?_getD, List.getElem?_map,
    List.getElem?_eq_getElem h]
  rfl

lemma median_map_add (xs : List ℚ) (c : ℚ) :
    median (xs.map (fun x => x + c)) = (median xs).map (fun x => x + c) := by
  simp only [median, mergeSort_map_add, List.length_map]
  by_cases h0 : (xs.mergeSort qle).length = 0
  · simp [h0, Except.map]
  · by_cases hodd : (xs.mergeSort qle).length % 2 = 1
    · rw [if_neg h0, if_neg h0, if_pos hodd, if_pos hodd,
        getD_map_add _ _ _ (show (xs.mergeSort qle).length / 2 < (xs.mergeSort qle).length
          by omega)]
      rfl
    · rw [if_neg h0, if_neg h0, if_neg hodd, if_neg hodd,
        getD_map_add _ _ _
          (show (xs.mergeSort qle).length / 2 - 1 < (xs.mergeSort qle).length by omega),
        getD_map_add _ _ _
          (show (xs.mergeSort qle).length / 2 < (xs.mergeSort qle).length by omega)]
      show Except.ok _ = Except.ok _
      congr 1
      ring

lemma firstOnsets_shift (c : ℚ) : ∀ l2d : List (List Oto),
    firstOnsets (shift2d c l2d) = (firstOnsets l2d).map (List.map (fun x => x + c)) := by
  intro l2d
  induction l2d with
  | nil => rfl
  | cons g rest ih =>
    cases g with
    | nil => rfl
    | cons o t =>
      have hL : firstOnsets (shift2d c ((o :: t) :: rest))
          = (firstOnsets (shift2d c rest)).map (fun xs => onset (shiftOto c o) :: xs) := rfl
      have hR : firstOnsets ((o :: t) :: rest)
          = (firstOnsets rest).map (fun xs => onset o :: xs) := rfl
      rw [hL, hR, ih, onset_shiftOto]
      cases firstOnsets rest with
      | error e => rfl
      | ok xs => rfl

lemma median_of_first_preutterance_shift (l2d : List (List Oto)) (c : ℚ) :
    median_of_first_preutterance (shift2d c l2d)
      = (median_of_first_preutterance l2d).map (fun x => x + c) := by
  unfold median_of_first_preutterance
  rw [firstOnsets_shift]
  cases firstOnsets l2d with
  | error e => rfl
  | ok xs => exact median_map_add xs c

lemma group_durations_shift (c : ℚ) (rest : List Oto) : ∀ prev,
    group_durations (shiftOto c prev) (rest.map (shiftOto c)) = group_durations prev rest := by
  induction rest with
  | nil => intro _; rfl
  | cons curr rest ih =>
    intro prev
    have hd : onset (shiftOto c curr) - onset (shiftOto c prev) = onset curr - onset prev := by
      rw [onset_shiftOto, onset_shiftOto]
      ring
    simp only [List.map_cons, group_durations, hd, ih]

lemma l_times_shift (c : ℚ) (l2d : List (List Oto)) :
    l_times (shift2d c l2d) = l_times l2d := by
  unfold l_times shift2d
  rw [List.map_map]
  congr 1
  refine List.map_congr_left ?_
  intro g _
  cases g with
  | nil => rfl
  | cons o t => exact group_durations_shift c t o

/-! ### Sort stability and grouping consistency (claim C6) -/

lemma sorted_otoini_sorted (l : List Oto) :
    List.Pairwise (fun a b => otoLE a b = true) (sorted_otoini l) :=
  List.sorted_mergeSort otoLE_trans otoLE_total l

lemma sorted_otoini_stable (l : List Oto) (fn : String) (off : ℚ) :
    (sorted_otoini l).filter (fun o => decide (o.filename = fn ∧ o.offset = off))
      = l.filter (fun o => decide (o.filename = fn ∧ o.offset = off)) := by
  set p : Oto → Bool := fun o => decide (o.filename = fn ∧ o.offset = off) with hp
  have hkey : ∀ a : Oto, p a = true → a.filename = fn ∧ a.offset = off := by
    intro a ha
    simpa [hp] using ha
  have hpair : (l.filter p).Pairwise (fun a b => otoLE a b = true) := by
    refine List.pairwise_of_forall_mem_list ?_
    intro a ha b hb
    obtain ⟨ha1, ha2⟩ := hkey a (List.mem_filter.mp ha).2
    obtain ⟨hb1, hb2⟩ := hkey b (List.mem_filter.mp hb).2
    simp only [otoLE, decide_eq_true_eq]
    exact Or.inr ⟨ha1.trans hb1.symm, by rw [ha2, hb2]⟩
  have hsub : (l.filter p).Sublist (sorted_otoini l) :=
    List.sublist_mergeSort otoLE_trans otoLE_total hpair (List.filter_sublist l)
  have hsub2 : ((l.filter p).filter p).Sublist ((sorted_otoini l).filter p) :=
    List.Sublist.filter p hsub
  rw [List.filter_filter] at hsub2
  have hself : l.filter (fun a => p a && p a) = l.filter p := by
    congr 1
    funext a
    exact Bool.and_self (p a)
  rw [hself] at hsub2
  have hlen : ((sorted_otoini l).filter p).length = (l.filter p).length :=
    ((List.mergeSort_perm l otoLE).filter p).length_eq
  exact (hsub2.eq_of_length hlen.symm).symm

lemma pairwise_le_of_sorted_group {gs : List (List Oto)} {g : List Oto}
    (hmem : g ∈ gs) (hsorted : List.Pairwise (fun a b => otoLE a b = true) gs.flatten)
    (hsame : ∀ a ∈ g, ∀ b ∈ g, a.filename = b.filename) :
    List.Pairwise (fun a b : Oto => a.offset ≤ b.offset) g := by
  have hsub : g.Sublist gs.flatten := List.sublist_flatten_of_mem hmem
  have hg : List.Pairwise (fun a b => otoLE a b = true) g :=
    List.Pairwise.sublist hsub hsorted
  refine hg.imp_of_mem ?_
  intro a b ha hb hab
  simp only [otoLE, decide_eq_true_eq] at hab
  rcases hab with h | ⟨_, h'⟩
  · exact absurd h (by rw [hsame a ha b hb]; exact lt_irrefl _)
  · exact h'

lemma map_headFilename_sublist (gs : List (List Oto)) (h : ∀ g ∈ gs, g ≠ []) :
    List.Sublist (gs.map headFilename) ((gs.flatten).map Oto.filename) := by
  induction gs with
  | nil => exact List.nil_sublist _
  | cons g gs ih =>
    have ih' := ih (fun g' hg' => h g' (List.mem_cons_of_mem _ hg'))
    cases g with
    | nil => exact absurd rfl (h [] (List.mem_cons_self _ _))
    | cons o t =>
      simp only [List.map_cons, List.flatten_cons, List.map_append, List.map_cons,
        List.cons_append]
      have hhead : headFilename (o :: t) = o.filename := rfl
      rw [hhead]
      exact List.Sublist.cons₂ _ (List.sublist_append_of_sublist_right ih')

lemma pairwise_lt_of_pairwise_le_chain_ne (l : List String)
    (hle : List.Pairwise (fun a b : String => a ≤ b) l)
    (hne : List.Chain' (fun a b : String => a ≠ b) l) :
    List.Pairwise (fun a b : String => a < b) l := by
  induction l with
  | nil => exact List.Pairwise.nil
  | cons a t ih =>
    rcases List.pairwise_cons.mp hle with ⟨hall, htle⟩
    cases t with
    | nil => simp
    | cons b t' =>
      rcases List.chain'_cons.mp hne with ⟨hab, htne⟩
      refine List.pairwise_cons.mpr ⟨?_, ih htle htne⟩
      intro x hx
      rcases List.mem_cons.mp hx with rfl | hx'
      · exact lt_of_le_of_ne (hall x (List.mem_cons_self _ _)) hab
      · have hbx : b ≤ x := List.rel_of_pairwise_cons htle hx'
        exact lt_of_lt_of_le (lt_of_le_of_ne (hall b (List.mem_cons_self _ _)) hab) hbx

/-- Claim C6 (counterexample): the claim quantifies over every input
sequence, but on an input containing a record with an empty filename that
record sorts first and `otoini_2d` fails (`NameError` on the never-created
accumulator) instead of yielding any grouping. -/
theorem sort_and_grouping_counterexample :
    otoini_2d (sorted_otoini [otoNoName]) = none := by
  rw [show sorted_otoini [otoNoName] = [otoNoName] from List.mergeSort_singleton otoNoName]
  exact otoini_2d_cons_bad otoNoName [] rfl

/-- Claim C6 (amended): for every input sequence in which no record has an
empty filename, `sorted_otoini` orders records primarily by filename
ascending and secondarily by offset ascending (stably: each
filename-offset class keeps its original relative order, stated as a
filter equation, and the output is a permutation of the input), and
`otoini_2d` on the sorted sequence succeeds with groups that concatenate
back to exactly the sorted sequence, are each non-empty and of a single
filename, are internally sorted by offset, and appear in strictly
ascending filename order (first-appearance order of the sorted
sequence). -/
theorem sort_and_grouping_consistency (l : List Oto) (hfn : ∀ o ∈ l, o.filename ≠ "") :
    List.Pairwise (fun a b => otoLE a b = true) (sorted_otoini l)
  ∧ List.Perm (sorted_otoini l) l
  ∧ (∀ fn off, (sorted_otoini l).filter (fun o => decide (o.filename = fn ∧ o.offset = off))
        = l.filter (fun o => decide (o.filename = fn ∧ o.offset = off)))
  ∧ ∃ gs, otoini_2d (sorted_otoini l) = some gs
      ∧ gs.flatten = sorted_otoini l
      ∧ (∀ g ∈ gs, g ≠ [])
      ∧ (∀ g ∈ gs, ∀ a ∈ g, ∀ b ∈ g, a.filename = b.filename)
      ∧ (∀ g ∈ gs, List.Pairwise (fun a b : Oto => a.offset ≤ b.offset) g)
      ∧ List.Pairwise (fun a b : String => a < b) (gs.map headFilename) := by
  have hsorted := sorted_otoini_sorted l
  have hperm : List.Perm (sorted_otoini l) l := List.mergeSort_perm l otoLE
  refine ⟨hsorted, hperm, fun fn off => sorted_otoini_stable l fn off, ?_⟩
  cases hs : sorted_otoini l with
  | nil =>
    exact ⟨[], otoini_2d_nil, rfl, by simp, by simp, by simp, by simp⟩
  | cons o rest =>
    have ho : o ∈ l := hperm.mem_iff.mp (hs ▸ List.mem_cons_self o rest)
    have hone : o.filename ≠ "" := hfn o ho
    have hflat : (groupRunsFrom o.filename [o] rest).flatten = o :: rest := by
      rw [groupRunsFrom_flatten]
      rfl
    have hnon : ∀ g ∈ groupRunsFrom o.filename [o] rest, g ≠ [] :=
      groupRunsFrom_ne_nil rest o.filename [o] (by simp)
    have hsame : ∀ g ∈ groupRunsFrom o.filename [o] rest,
        ∀ a ∈ g, ∀ b ∈ g, a.filename = b.filename :=
      groupRunsFrom_filename rest o.filename [o] (by simp)
    have hsorted' : List.Pairwise (fun a b => otoLE a b = true) (o :: rest) := hs ▸ hsorted
    refine ⟨groupRunsFrom o.filename [o] rest, ?_, ?_, hnon, hsame, ?_, ?_⟩
    · exact otoini_2d_cons o rest hone
    · exact hflat
    · intro g hg
      refine pairwise_le_of_sorted_group hg ?_ (hsame g hg)
      rw [hflat]
      exact hsorted'
    · have hchain := groupRunsFrom_chain rest o.filename [o] (by simp) (by simp)
      have hsubheads := map_headFilename_sublist _ hnon
      rw [hflat] at hsubheads
      have hfnle : List.Pairwise (fun a b : String => a ≤ b)
          ((o :: rest).map Oto.filename) := by
        rw [List.pairwise_map]
        refine hsorted'.imp ?_
        intro a b hab
        simp only [otoLE, decide_eq_true_eq] at hab
        rcases hab with h | ⟨h, _⟩
        · exact le_of_lt h
        · exact le_of_eq h
      exact pairwise_lt_of_pairwise_le_chain_ne _
        (List.Pairwise.sublist hsubheads hfnle) hchain

/-- Claim C6 witness: the amended statement instantiated at a concrete
one-record input. -/
theorem sort_and_grouping_consistency_witness :
    List.Pairwise (fun a b => otoLE a b = true) (sorted_otoini [otoA])
  ∧ List.Perm (sorted_otoini [otoA]) [otoA]
  ∧ (∀ fn off, (sorted_otoini [otoA]).filter
        (fun o => decide (o.filename = fn ∧ o.offset = off))
        = [otoA].filter (fun o => decide (o.filename = fn ∧ o.offset = off)))
  ∧ ∃ gs, otoini_2d (sorted_otoini [otoA]) = some gs
      ∧ gs.flatten = sorted_otoini [otoA]
      ∧ (∀ g ∈ gs, g ≠ [])
      ∧ (∀ g ∈ gs, ∀ a ∈ g, ∀ b ∈ g, a.filename = b.filename)
      ∧ (∀ g ∈ gs, List.Pairwise (fun a b : Oto => a.offset ≤ b.offset) g)
      ∧ List.Pairwise (fun a b : String => a < b) (gs.map headFilename) :=
  sort_and_grouping_consistency [otoA] (by decide)

/-- Claim C5: adding a constant `c` to the offset of every record shifts
the result of `median_of_first_preutterance` by exactly `c` (on the error
path the error is unchanged) and leaves `median_of_ms_per_beat`
unchanged. -/
theorem median_shift_invariance (l2d : List (List Oto)) (c : ℚ) :
    median_of_first_preutterance (shift2d c l2d)
      = (median_of_first_preutterance l2d).map (fun x => x + c)
  ∧ median_of_ms_per_beat (shift2d c l2d) = median_of_ms_per_beat l2d := by
  refine ⟨median_of_first_preutterance_shift l2d c, ?_⟩
  unfold median_of_ms_per_beat
  rw [l_times_shift]

end OtoCheck
